import Mathlib

/-!
Verification of the pshcalc repository: a shallow embedding, in Lean 4, of the
odometer (mixed-radix counter), linear-index, generator, and law-checker code,
together with theorems settling the specification claims.

Conventions of the embedding:
* Rust `usize` values are modelled as `Nat` (the repository never relies on
  wrap-around arithmetic; all quantities are small indices and sizes).
* Rust slices/Vecs are modelled as `List Nat`; an out-of-bounds read, which
  panics in Rust and is documented as an unreachable programming error, is
  modelled by `List.getD _ 0` (a default value of 0).
* `Result<(), E>` is modelled as `Option E`, where `none` models `Ok(())` and
  `some e` models `Err(e)`.
-/

set_option maxRecDepth 4000

namespace Pshcalc

/-- Embeds `advance_counter` (src/set/mod.rs): increment the least significant
digit; on reaching its bound, reset it to 0 and carry into the next digit;
return `true` once a carry propagates past the most significant digit.
The case of `limits` shorter than `data` is an out-of-bounds panic in Rust
(unreachable: callers always pass equal lengths); it is modelled as `true`
with the data unchanged. -/
def advance_counter : List Nat → List Nat → List Nat × Bool
  | [], _ => ([], true)
  | d :: ds, [] => (d :: ds, true)
  | d :: ds, l :: ls =>
    if d + 1 < l then ((d + 1) :: ds, false)
    else (0 :: (advance_counter ds ls).1, (advance_counter ds ls).2)

/-- Embeds the general-case loop of `calculate_linear_index` (src/set/mod.rs):
`index = Σ indices[i] * Π_{j<i} sizes[j]`, first digit least significant. -/
def linear_index_loop : List Nat → List Nat → Nat
  | [], _ => 0
  | i :: is', s :: ss => i + s * linear_index_loop is' ss
  | _ :: _, [] => 0

/-- Embeds `calculate_linear_index` (src/set/mod.rs), including its
specialized binary fast path `indices[0] + indices[1] * sizes[0]`. -/
def calculate_linear_index (indices sizes : List Nat) : Nat :=
  if indices.length = 2 then indices.getD 0 0 + indices.getD 1 0 * sizes.getD 0 0
  else linear_index_loop indices sizes

/-- Embeds `Function::index` (src/set/hom_set/mod.rs): the little-endian
linear index of a function table's entries. -/
def Function.index : List Nat → List Nat → Nat
  | [], _ => 0
  | e :: es, sz :: szs => e + sz * Function.index es szs
  | _ :: _, [] => 0

/-- Mixed-radix decoding: the digit vector of `n` for a bounds vector.  This is
the specification-side inverse of the linear index ("round-trip
index → digits → index"); it is not a function of the source, which produces
digit vectors by iterating the odometer. -/
def toDigits : Nat → List Nat → List Nat
  | _, [] => []
  | n, b :: bs => (n % b) :: toDigits (n / b) bs

theorem toDigits_length (n : Nat) (bs : List Nat) : (toDigits n bs).length = bs.length := by
  induction bs generalizing n with
  | nil => rfl
  | cons b bs ih => simp [toDigits, ih]

theorem toDigits_zero (bs : List Nat) : toDigits 0 bs = List.replicate bs.length 0 := by
  induction bs with
  | nil => rfl
  | cons b bs ih => simp [toDigits, ih, Nat.zero_mod, Nat.zero_div, List.replicate_succ]

theorem toDigits_forall₂ {bs : List Nat} (hpos : ∀ b ∈ bs, 0 < b) (n : Nat) :
    List.Forall₂ (· < ·) (toDigits n bs) bs := by
  induction bs generalizing n with
  | nil => exact List.Forall₂.nil
  | cons b bs ih =>
    exact List.Forall₂.cons (Nat.mod_lt _ (hpos b (by simp)))
      (ih (fun x hx => hpos x (by simp [hx])) (n / b))

theorem loop_toDigits {bs : List Nat} (hpos : ∀ b ∈ bs, 0 < b) {n : Nat}
    (h : n < bs.prod) : linear_index_loop (toDigits n bs) bs = n := by
  induction bs generalizing n with
  | nil =>
    simp only [List.prod_nil] at h
    simp only [toDigits, linear_index_loop]
    omega
  | cons b bs ih =>
    have hb : 0 < b := hpos b (by simp)
    have hdiv : n / b < bs.prod := by
      rw [Nat.div_lt_iff_lt_mul hb]
      calc n < (b :: bs).prod := h
      _ = bs.prod * b := by rw [List.prod_cons, Nat.mul_comm]
    simp only [toDigits, linear_index_loop]
    rw [ih (fun x hx => hpos x (by simp [hx])) hdiv]
    exact Nat.mod_add_div n b

theorem toDigits_loop {ds bs : List Nat} (h : List.Forall₂ (· < ·) ds bs) :
    toDigits (linear_index_loop ds bs) bs = ds := by
  induction h with
  | nil => rfl
  | cons hdb htail ih =>
    rename_i d b ds bs
    have hb : 0 < b := Nat.lt_of_le_of_lt (Nat.zero_le d) hdb
    simp only [linear_index_loop, toDigits]
    have h1 : (d + b * linear_index_loop ds bs) % b = d := by
      rw [Nat.add_mul_mod_self_left, Nat.mod_eq_of_lt hdb]
    have h2 : (d + b * linear_index_loop ds bs) / b = linear_index_loop ds bs := by
      rw [Nat.add_mul_div_left d _ hb, Nat.div_eq_of_lt hdb, Nat.zero_add]
    rw [h1, h2, ih]

theorem loop_lt {ds bs : List Nat} (h : List.Forall₂ (· < ·) ds bs) :
    linear_index_loop ds bs < bs.prod := by
  induction h with
  | nil => simp [linear_index_loop]
  | cons hdb htail ih =>
    rename_i d b ds bs
    simp only [linear_index_loop, List.prod_cons]
    calc d + b * linear_index_loop ds bs
        < b + b * linear_index_loop ds bs := by omega
      _ = b * (linear_index_loop ds bs + 1) := by ring
      _ ≤ b * bs.prod := Nat.mul_le_mul_left b ih

theorem forall₂_length {ds bs : List Nat} (h : List.Forall₂ (· < ·) ds bs) :
    ds.length = bs.length := List.Forall₂.length_eq h

/-- The odometer step is exactly `+1` under the mixed-radix linear index: on a
valid digit vector it produces the digits of the successor (flag `false`), or
wraps to all-zero (flag `true`) when the index was `∏ bounds - 1`. -/
theorem advance_counter_eq {ds bs : List Nat} (h : List.Forall₂ (· < ·) ds bs) :
    advance_counter ds bs =
      if linear_index_loop ds bs + 1 < bs.prod
      then (toDigits (linear_index_loop ds bs + 1) bs, false)
      else (List.replicate bs.length 0, true) := by
  induction h with
  | nil => simp [advance_counter, linear_index_loop]
  | cons hdb htail ih =>
    rename_i d b ds bs
    have hb : 0 < b := Nat.lt_of_le_of_lt (Nat.zero_le d) hdb
    have hr : linear_index_loop ds bs < bs.prod := loop_lt htail
    simp only [advance_counter, linear_index_loop, List.prod_cons, List.length_cons]
    by_cases hlt : d + 1 < b
    · have hidx : d + b * linear_index_loop ds bs + 1 < b * bs.prod := by
        calc d + b * linear_index_loop ds bs + 1
            < b + b * linear_index_loop ds bs := by omega
          _ = b * (linear_index_loop ds bs + 1) := by ring
          _ ≤ b * bs.prod := Nat.mul_le_mul_left b hr
      rw [if_pos hlt, if_pos hidx]
      simp only [toDigits]
      have hmod : (d + b * linear_index_loop ds bs + 1) % b = d + 1 := by
        have : d + b * linear_index_loop ds bs + 1 = (d + 1) + b * linear_index_loop ds bs := by
          ring
        rw [this, Nat.add_mul_mod_self_left, Nat.mod_eq_of_lt hlt]
      have hdivq : (d + b * linear_index_loop ds bs + 1) / b = linear_index_loop ds bs := by
        have : d + b * linear_index_loop ds bs + 1 = (d + 1) + b * linear_index_loop ds bs := by
          ring
        rw [this, Nat.add_mul_div_left _ _ hb, Nat.div_eq_of_lt hlt, Nat.zero_add]
      rw [hmod, hdivq, toDigits_loop htail]
    · have hdb1 : d + 1 = b := by omega
      have hidx : d + b * linear_index_loop ds bs + 1 = b * (linear_index_loop ds bs + 1) := by
        rw [← hdb1]; ring
      rw [if_neg hlt, ih]
      by_cases hnext : linear_index_loop ds bs + 1 < bs.prod
      · have : d + b * linear_index_loop ds bs + 1 < b * bs.prod := by
          rw [hidx]
          exact Nat.mul_lt_mul_of_pos_left hnext hb
        rw [if_pos hnext, if_pos this]
        simp only [toDigits, hidx]
        rw [Nat.mul_mod_right, Nat.mul_div_cancel_left _ hb]
      · have hstop : ¬ d + b * linear_index_loop ds bs + 1 < b * bs.prod := by
          rw [hidx]
          have : bs.prod ≤ linear_index_loop ds bs + 1 := by omega
          exact Nat.not_lt.mpr (Nat.mul_le_mul_left b this)
        rw [if_neg hnext, if_neg hstop]
        simp [List.replicate_succ]

theorem advance_counter_length (ds bs : List Nat) :
    (advance_counter ds bs).1.length = ds.length := by
  induction ds generalizing bs with
  | nil => cases bs <;> rfl
  | cons d ds ih =>
    cases bs with
    | nil => rfl
    | cons b bs =>
      simp only [advance_counter]
      by_cases h : d + 1 < b
      · rw [if_pos h]
        simp
      · rw [if_neg h]
        simp [ih]

theorem advance_counter_zero_limits (ds : List Nat) :
    (advance_counter ds (List.replicate ds.length 0)).2 = true := by
  induction ds with
  | nil => rfl
  | cons d ds ih =>
    simp only [List.length_cons, List.replicate_succ, advance_counter]
    rw [if_neg (by omega)]
    exact ih

/-- Each digit clamped below its bound; used only as a termination measure for
the validated skip-forward recursion. -/
def clampDigits : List Nat → List Nat → List Nat
  | [], _ => []
  | _ :: _, [] => []
  | d :: ds, b :: bs => min d (b - 1) :: clampDigits ds bs

theorem clampDigits_forall₂ {ds bs : List Nat} (hlen : ds.length = bs.length)
    (hpos : ∀ b ∈ bs, 0 < b) : List.Forall₂ (· < ·) (clampDigits ds bs) bs := by
  induction ds generalizing bs with
  | nil =>
    cases bs with
    | nil => exact List.Forall₂.nil
    | cons b bs => simp at hlen
  | cons d ds ih =>
    cases bs with
    | nil => simp at hlen
    | cons b bs =>
      have hb : 0 < b := hpos b (by simp)
      exact List.Forall₂.cons (by omega)
        (ih (by simpa using hlen) (fun x hx => hpos x (by simp [hx])))

theorem advance_counter_clamp_succ {ds ds' bs : List Nat} (hpos : ∀ b ∈ bs, 0 < b)
    (h : advance_counter ds bs = (ds', false)) :
    linear_index_loop (clampDigits ds' bs) bs = linear_index_loop (clampDigits ds bs) bs + 1 := by
  induction ds generalizing ds' bs with
  | nil =>
    cases bs <;> simp [advance_counter] at h
  | cons d ds ih =>
    cases bs with
    | nil => simp [advance_counter] at h
    | cons b bs =>
      have hb : 0 < b := hpos b (by simp)
      simp only [advance_counter] at h
      by_cases hlt : d + 1 < b
      · rw [if_pos hlt] at h
        obtain ⟨rfl⟩ : (d + 1) :: ds = ds' := congrArg Prod.fst h
        simp only [clampDigits, linear_index_loop]
        have h1 : min (d + 1) (b - 1) = d + 1 := by omega
        have h2 : min d (b - 1) = d := by omega
        rw [h1, h2]
        omega
      · rw [if_neg hlt] at h
        have htail : advance_counter ds bs = ((advance_counter ds bs).1, false) := by
          have h2 := congrArg Prod.snd h
          simp only [Prod.snd] at h2
          rw [← h2]
        have hfst := congrArg Prod.fst h
        simp at hfst
        rw [← hfst]
        simp only [clampDigits, linear_index_loop]
        have hrec := ih (fun x hx => hpos x (by simp [hx])) htail
        rw [hrec]
        have h1 : min (0 : Nat) (b - 1) = 0 := by omega
        have h2 : min d (b - 1) = b - 1 := by omega
        rw [h1, h2]
        have : b * (linear_index_loop (clampDigits ds bs) bs + 1) =
            b * linear_index_loop (clampDigits ds bs) bs + b := by ring
        omega

theorem clamp_loop_lt {ds bs : List Nat} (hlen : ds.length = bs.length)
    (hpos : ∀ b ∈ bs, 0 < b) :
    linear_index_loop (clampDigits ds bs) bs < bs.prod :=
  loop_lt (clampDigits_forall₂ hlen hpos)

/-- The validated skip-forward step shared by `PresheafSet::next`
(src/psh/mod.rs): perform one raw odometer step on the digit vector with every
bound equal to `S`; if the odometer wrapped, report exhaustion (`false`);
otherwise accept the candidate if `valid`, and repeat the full validated step
if not.  The Rust code expresses the repetition as recursion on the whole
validated step; the measure below shows that recursion terminates. -/
def validated_next (valid : List Nat → Bool) (S : Nat) (a : List Nat) : List Nat × Bool :=
  if h : (advance_counter a (List.replicate a.length S)).2 = true then
    ((advance_counter a (List.replicate a.length S)).1, false)
  else if valid (advance_counter a (List.replicate a.length S)).1 then
    ((advance_counter a (List.replicate a.length S)).1, true)
  else validated_next valid S (advance_counter a (List.replicate a.length S)).1
termination_by
  S ^ a.length -
    linear_index_loop (clampDigits a (List.replicate a.length S)) (List.replicate a.length S)
decreasing_by
  have hlen : (advance_counter a (List.replicate a.length S)).1.length = a.length :=
    advance_counter_length a (List.replicate a.length S)
  have hS : 0 < S := by
    rcases Nat.eq_zero_or_pos S with h0 | h0
    · exfalso
      apply h
      rw [h0]
      exact advance_counter_zero_limits a
    · exact h0
  have hpos : ∀ b ∈ List.replicate a.length S, 0 < b := by
    intro b hb
    rw [List.eq_of_mem_replicate hb]
    exact hS
  have hstep : advance_counter a (List.replicate a.length S) =
      ((advance_counter a (List.replicate a.length S)).1, false) := by
    have h2 : (advance_counter a (List.replicate a.length S)).2 = false := by
      simpa using h
    rw [← h2]
  have hsucc := advance_counter_clamp_succ hpos hstep
  have hlt : linear_index_loop (clampDigits a (List.replicate a.length S))
      (List.replicate a.length S) < (List.replicate a.length S).prod :=
    clamp_loop_lt (by simp) hpos
  rw [hlen, hsucc]
  rw [List.prod_replicate] at hlt
  omega

theorem validated_next_spec_aux (valid : List Nat → Bool) (S : Nat) :
    ∀ (fuel : Nat) (a : List Nat),
      List.Forall₂ (· < ·) a (List.replicate a.length S) →
      S ^ a.length - linear_index_loop a (List.replicate a.length S) ≤ fuel →
      ((∀ j, linear_index_loop a (List.replicate a.length S) < j → j < S ^ a.length →
          valid (toDigits j (List.replicate a.length S)) = true →
          (∀ t, linear_index_loop a (List.replicate a.length S) < t → t < j →
            valid (toDigits t (List.replicate a.length S)) = false) →
          validated_next valid S a = (toDigits j (List.replicate a.length S), true))
        ∧ ((∀ j, linear_index_loop a (List.replicate a.length S) < j → j < S ^ a.length →
            valid (toDigits j (List.replicate a.length S)) = false) →
          validated_next valid S a = (List.replicate a.length 0, false))) := by
  intro fuel
  induction fuel with
  | zero =>
    intro a hv hfuel
    exfalso
    have hlt : linear_index_loop a (List.replicate a.length S) <
        (List.replicate a.length S).prod := loop_lt hv
    rw [List.prod_replicate] at hlt
    omega
  | succ fuel ih =>
    intro a hv hfuel
    have hadv := advance_counter_eq hv
    rw [List.prod_replicate, List.length_replicate] at hadv
    by_cases hC : linear_index_loop a (List.replicate a.length S) + 1 < S ^ a.length
    · rw [if_pos hC] at hadv
      have hS : 0 < S := by
        rcases Nat.eq_zero_or_pos S with rfl | h
        · exfalso
          rcases Nat.eq_zero_or_pos a.length with hl | hl
          · rw [hl] at hC
            simp at hC
          · rw [Nat.zero_pow (by omega)] at hC
            omega
        · exact h
      have hpos : ∀ b ∈ List.replicate a.length S, 0 < b := by
        intro b hb
        rw [List.eq_of_mem_replicate hb]
        exact hS
      set i := linear_index_loop a (List.replicate a.length S) with hi
      by_cases hval : valid (toDigits (i + 1) (List.replicate a.length S)) = true
      · have hres : validated_next valid S a =
            (toDigits (i + 1) (List.replicate a.length S), true) := by
          rw [validated_next, hadv]
          simp [hval]
        constructor
        · intro j hij hjN hvj hmin
          have hj1 : j = i + 1 := by
            by_contra hne
            have hji : i + 1 < j := by omega
            have := hmin (i + 1) (by omega) hji
            rw [this] at hval
            exact Bool.false_ne_true hval
          rw [hj1]
          exact hres
        · intro hall
          exfalso
          have := hall (i + 1) (by omega) hC
          rw [this] at hval
          exact Bool.false_ne_true hval
      · have hval' : valid (toDigits (i + 1) (List.replicate a.length S)) = false := by
          revert hval
          cases valid (toDigits (i + 1) (List.replicate a.length S)) <;> simp
        have hres : validated_next valid S a =
            validated_next valid S (toDigits (i + 1) (List.replicate a.length S)) := by
          rw [validated_next, hadv]
          simp [hval']
        have hlen' : (toDigits (i + 1) (List.replicate a.length S)).length = a.length := by
          rw [toDigits_length, List.length_replicate]
        have hv' : List.Forall₂ (· < ·) (toDigits (i + 1) (List.replicate a.length S))
            (List.replicate (toDigits (i + 1) (List.replicate a.length S)).length S) := by
          rw [hlen']
          exact toDigits_forall₂ hpos (i + 1)
        have hidx' : linear_index_loop (toDigits (i + 1) (List.replicate a.length S))
            (List.replicate a.length S) = i + 1 := by
          apply loop_toDigits hpos
          rw [List.prod_replicate]
          exact hC
        have hfuel' : S ^ (toDigits (i + 1) (List.replicate a.length S)).length -
            linear_index_loop (toDigits (i + 1) (List.replicate a.length S))
              (List.replicate (toDigits (i + 1) (List.replicate a.length S)).length S) ≤ fuel := by
          rw [hlen', hidx']
          omega
        have IH := ih (toDigits (i + 1) (List.replicate a.length S)) hv' hfuel'
        rw [hlen'] at IH
        constructor
        · intro j hij hjN hvj hmin
          have hji : i + 1 < j := by
            rcases Nat.lt_or_ge (i + 1) j with h' | h'
            · exact h'
            · exfalso
              have hj : j = i + 1 := by omega
              rw [hj] at hvj
              rw [hvj] at hval'
              simp at hval'
          rw [hres]
          exact IH.1 j (by rw [hidx']; exact hji) hjN hvj
            (fun t ht1 ht2 => hmin t (by rw [hidx'] at ht1; omega) ht2)
        · intro hall
          rw [hres]
          exact IH.2 (fun j hj1 hj2 => hall j (by rw [hidx'] at hj1; omega) hj2)
    · rw [if_neg hC] at hadv
      have hres : validated_next valid S a = (List.replicate a.length 0, false) := by
        rw [validated_next, hadv]
        simp
      constructor
      · intro j hij hjN hvj hmin
        exfalso
        omega
      · intro _
        exact hres

/-- Characterization of the validated skip-forward step on a valid digit
vector: it yields exactly the next valid candidate in raw odometer order
(skipping every invalid one, yielding no invalid one), or signals exhaustion
with the digits wrapped to all-zero when no later candidate is valid. -/
theorem validated_next_spec (valid : List Nat → Bool) (S : Nat) (a : List Nat)
    (hv : List.Forall₂ (· < ·) a (List.replicate a.length S)) :
    ((∀ j, linear_index_loop a (List.replicate a.length S) < j → j < S ^ a.length →
        valid (toDigits j (List.replicate a.length S)) = true →
        (∀ t, linear_index_loop a (List.replicate a.length S) < t → t < j →
          valid (toDigits t (List.replicate a.length S)) = false) →
        validated_next valid S a = (toDigits j (List.replicate a.length S), true))
      ∧ ((∀ j, linear_index_loop a (List.replicate a.length S) < j → j < S ^ a.length →
          valid (toDigits j (List.replicate a.length S)) = false) →
        validated_next valid S a = (List.replicate a.length 0, false))) :=
  validated_next_spec_aux valid S
    (S ^ a.length - linear_index_loop a (List.replicate a.length S)) a hv (Nat.le_refl _)

/-- Embeds `IteratorState` (src/set/utils/mod.rs). -/
inductive IteratorState where
  | Start : IteratorState
  | Running : IteratorState
  | End : IteratorState
deriving DecidableEq, Repr

/-- The digit-update loop of `ArrayTicker::advance` (src/set/utils/mod.rs):
increment each digit in order; a digit reaching its size is reset to 0 and the
carry continues, otherwise the loop stops.  Returns the updated array and
whether the loop ran off the end (the ticker then moves to the End state).
Note the bound test is `== sizes[i]` where `advance_counter` uses `<`.
A `sizes` vector shorter than the array is an out-of-bounds panic in Rust
(unreachable); it is modelled as `true` with the data unchanged. -/
def tickLoop : List Nat → List Nat → List Nat × Bool
  | [], _ => ([], true)
  | d :: ds, [] => (d :: ds, true)
  | d :: ds, s :: ss =>
    if d + 1 = s then (0 :: (tickLoop ds ss).1, (tickLoop ds ss).2)
    else ((d + 1) :: ds, false)

/-- Embeds `ArrayTicker` (src/set/utils/mod.rs): a Start/Running/End state
machine over a digit array and per-digit sizes. -/
structure ArrayTicker where
  state : IteratorState
  array : List Nat
  sizes : List Nat
deriving DecidableEq, Repr

/-- Embeds `ArrayTicker::advance` (src/set/utils/mod.rs, lines 72–94). -/
def ArrayTicker.advance : ArrayTicker → ArrayTicker
  | ⟨IteratorState.Start, a, s⟩ => ⟨IteratorState.Running, a, s⟩
  | ⟨IteratorState.Running, a, s⟩ =>
    ⟨if (tickLoop a s).2 then IteratorState.End else IteratorState.Running, (tickLoop a s).1, s⟩
  | ⟨IteratorState.End, a, s⟩ => ⟨IteratorState.End, a, s⟩

/-- On digit vectors that are in range (each digit < its size), the ticker's
loop coincides with `advance_counter`: for `d < s`, the tests `d + 1 == s`
and `¬ (d + 1 < s)` agree. -/
theorem tickLoop_eq_advance_counter {ds bs : List Nat}
    (h : List.Forall₂ (· < ·) ds bs) : tickLoop ds bs = advance_counter ds bs := by
  induction h with
  | nil => rfl
  | cons hdb htail ih =>
    rename_i d b ds bs
    simp only [tickLoop, advance_counter]
    by_cases heq : d + 1 = b
    · rw [if_pos heq, if_neg (by omega), ih]
    · rw [if_neg heq, if_pos (by omega)]

/-- Embeds the flat-set streaming iterator of src/set/basic_set/mod.rs
(`USizeStreamingIterator`): Running increments the element and moves to End
when it reaches the set size — note the element is *not* reset to 0 there. -/
structure USizeStreamingIterator where
  state : IteratorState
  element : Nat
  size : Nat
deriving DecidableEq, Repr

/-- Embeds `USizeStreamingIterator::advance` (src/set/basic_set/mod.rs,
lines 45–59). -/
def USizeStreamingIterator.advance : USizeStreamingIterator → USizeStreamingIterator
  | ⟨IteratorState.Start, e, n⟩ => ⟨IteratorState.Running, e, n⟩
  | ⟨IteratorState.Running, e, n⟩ =>
    if e + 1 = n then ⟨IteratorState.End, e + 1, n⟩ else ⟨IteratorState.Running, e + 1, n⟩
  | ⟨IteratorState.End, e, n⟩ => ⟨IteratorState.End, e, n⟩

/-- Embeds `USizeStreamingIterator::get` (src/set/basic_set/mod.rs). -/
def USizeStreamingIterator.get : USizeStreamingIterator → Option Nat
  | ⟨IteratorState.Running, e, _⟩ => some e
  | _ => none

/-- Embeds `ProductSet::size` (src/set/mod.rs): the product of the dimension
sizes. -/
def ProductSet.size (sizes : List Nat) : Nat := sizes.prod

/-- Embeds `HomSet::size` (src/set/mod.rs): `target_size ^ domain_size`. -/
def HomSet.size (domain_size target_size : Nat) : Nat := target_size ^ domain_size

/-- Embeds `ProductSetVariable` (src/set/mod.rs): the `done` flag together
with the variable's tuple digits (its exclusive slice of the World's indices
array) and the dimension sizes. -/
structure ProductSetVariable where
  done : Bool
  indices : List Nat
  sizes : List Nat
deriving DecidableEq, Repr

/-- Embeds `ProductSetVariable::new`: digits allocated zero-initialized. -/
def ProductSetVariable.new (sizes : List Nat) : ProductSetVariable :=
  ⟨false, List.replicate sizes.length 0, sizes⟩

/-- Embeds `ProductSetVariable::initialize` (named `init` here): clear the
done flag and zero the digits. -/
def ProductSetVariable.init (v : ProductSetVariable) : ProductSetVariable :=
  ⟨false, List.replicate v.indices.length 0, v.sizes⟩

/-- Embeds `ProductSetVariable::advance`: one `advance_counter` step unless
already done. -/
def ProductSetVariable.advance (v : ProductSetVariable) : ProductSetVariable :=
  if v.done then v
  else ⟨(advance_counter v.indices v.sizes).2, (advance_counter v.indices v.sizes).1, v.sizes⟩

/-- Embeds `ProductSetVariable::get`: the current tuple, or `none` once done. -/
def ProductSetVariable.get (v : ProductSetVariable) : Option (List Nat) :=
  if v.done then none else some v.indices

/-- Embeds `HomSetVariable` (src/set/mod.rs): like `ProductSetVariable`, with
every dimension size equal to the target size. -/
structure HomSetVariable where
  done : Bool
  indices : List Nat
  sizes : List Nat
deriving DecidableEq, Repr

/-- Embeds `HomSetVariable::new`: `sizes = vec![target_size; domain_size]`,
function values zero-initialized. -/
def HomSetVariable.new (domain_size target_size : Nat) : HomSetVariable :=
  ⟨false, List.replicate domain_size 0, List.replicate domain_size target_size⟩

/-- Embeds `HomSetVariable::initialize` (named `init` here). -/
def HomSetVariable.init (v : HomSetVariable) : HomSetVariable :=
  ⟨false, List.replicate v.indices.length 0, v.sizes⟩

/-- Embeds `HomSetVariable::advance`. -/
def HomSetVariable.advance (v : HomSetVariable) : HomSetVariable :=
  if v.done then v
  else ⟨(advance_counter v.indices v.sizes).2, (advance_counter v.indices v.sizes).1, v.sizes⟩

/-- Embeds `HomSetVariable::get`. -/
def HomSetVariable.get (v : HomSetVariable) : Option (List Nat) :=
  if v.done then none else some v.indices

/-- Run a check for each element of a list in order, stopping at the first
error; `none` models `Ok(())`, `some e` models `Err(e)`.  This is the shape of
every `for`-loop-with-early-`return Err` in the validators. -/
def firstErr {ε : Type} : List Nat → (Nat → Option ε) → Option ε
  | [], _ => none
  | a :: as, f =>
    match f a with
    | some e => some e
    | none => firstErr as f

theorem firstErr_eq_none_iff {ε : Type} (l : List Nat) (f : Nat → Option ε) :
    firstErr l f = none ↔ ∀ a ∈ l, f a = none := by
  induction l with
  | nil => simp [firstErr]
  | cons a as ih =>
    simp only [firstErr, List.mem_cons]
    cases hfa : f a with
    | some e =>
      constructor
      · intro h
        exact absurd h (by simp)
      · intro h
        exact absurd (h a (Or.inl rfl)) (by simp [hfa])
    | none =>
      rw [ih]
      constructor
      · intro h b hb
        rcases hb with rfl | hb
        · exact hfa
        · exact h b hb
      · intro h b hb
        exact h b (Or.inr hb)

theorem firstErr_some {ε : Type} {l : List Nat} {f : Nat → Option ε} {e : ε}
    (h : firstErr l f = some e) : ∃ a ∈ l, f a = some e := by
  induction l with
  | nil => simp [firstErr] at h
  | cons a as ih =>
    simp only [firstErr] at h
    cases hfa : f a with
    | some e' =>
      rw [hfa] at h
      simp at h
      exact ⟨a, by simp, by rw [hfa, h]⟩
    | none =>
      rw [hfa] at h
      obtain ⟨b, hb, hfb⟩ := ih h
      exact ⟨b, by simp [hb], hfb⟩

namespace Cat

/-- Embeds `CategoryError` (src/cat/mod.rs). -/
inductive CategoryError where
  | IncompatibleComposition (g f : Nat) : CategoryError
  | NonAssociative (h g f : Nat) : CategoryError
  | NotAnIdentity (morphism : Nat) : CategoryError
deriving DecidableEq, Repr

/-- Embeds `Category` (src/cat/mod.rs): the borrowed `values` slice, laid out
as `source (m) ++ target (m) ++ identity (n) ++ composition (m·m)` per the
range helpers `source_range`/`target_range`/`identity_range`/
`composition_range`.  The `sizes` slice only feeds the linear-index
multipliers of the slice-based `Function` (filled with `object_count` for
source/target and `morphism_count` for identity/composition), so it is not
carried separately; the multiplier `morphism_count` is inlined in
`composition` below. -/
structure Category where
  values : List Nat
  morphism_count : Nat
  object_count : Nat
deriving DecidableEq, Repr

/-- `source()` view applied to a morphism: `values[f]`. -/
def Category.source (c : Category) (f : Nat) : Nat :=
  c.values.getD f 0

/-- `target()` view applied to a morphism: `values[morphism_count + f]`. -/
def Category.target (c : Category) (f : Nat) : Nat :=
  c.values.getD (c.morphism_count + f) 0

/-- `identity()` view applied to an object: `values[2·morphism_count + x]`. -/
def Category.identity (c : Category) (x : Nat) : Nat :=
  c.values.getD (2 * c.morphism_count + x) 0

/-- `composition()` view applied to a pair `(g, f)`: the entry of the
composition range at linear index `g + f · morphism_count` (the `[StackAtom; 2]`
linear index `a₀ + a₁ · size` with `size = morphism_count`, cf.
`to_linear_index` in src/set/mod.rs). -/
def Category.composition (c : Category) (g f : Nat) : Nat :=
  c.values.getD (2 * c.morphism_count + c.object_count + g + f * c.morphism_count) 0

/-- Embeds `Category::validate_well_definedness` (src/cat/mod.rs, lines
128–150): for all `f`, `g`, if `target(f) != source(g)` and
`composition(g,f) != 0`, report `IncompatibleComposition{g,f}`. -/
def Category.validate_well_definedness (c : Category) : Option CategoryError :=
  firstErr (List.range c.morphism_count) fun f =>
    firstErr (List.range c.morphism_count) fun g =>
      if c.target f ≠ c.source g ∧ c.composition g f ≠ 0 then
        some (CategoryError.IncompatibleComposition g f)
      else none

/-- Embeds `Category::validate_identity_laws` (src/cat/mod.rs, lines
153–190): for each object `x` with `id_x = identity(x)` and each morphism
`f`, if `source(f) = x` then `composition(f, id_x)` must equal `f`, and if
`target(f) = x` then `composition(id_x, f)` must equal `f`; a violation
reports `NotAnIdentity{id_x}`. -/
def Category.validate_identity_laws (c : Category) : Option CategoryError :=
  firstErr (List.range c.object_count) fun x =>
    firstErr (List.range c.morphism_count) fun f =>
      if c.source f = x ∧ c.composition f (c.identity x) ≠ f then
        some (CategoryError.NotAnIdentity (c.identity x))
      else if c.target f = x ∧ c.composition (c.identity x) f ≠ f then
        some (CategoryError.NotAnIdentity (c.identity x))
      else none

/-- Embeds `Category::validate_associativity` (src/cat/mod.rs, lines
193–219): for all `f`, `g`, `h`, `composition(composition(h,g), f)` must equal
`composition(h, composition(g,f))`; the first failing triple reports
`NonAssociative{(h,g,f)}`. -/
def Category.validate_associativity (c : Category) : Option CategoryError :=
  firstErr (List.range c.morphism_count) fun f =>
    firstErr (List.range c.morphism_count) fun g =>
      firstErr (List.range c.morphism_count) fun h =>
        if c.composition (c.composition h g) f ≠ c.composition h (c.composition g f) then
          some (CategoryError.NonAssociative h g f)
        else none

/-- Embeds `Category::validate` (src/cat/mod.rs, lines 100–125): identity
laws, then associativity, then well-definedness, short-circuiting on the
first failure. -/
def Category.validate (c : Category) : Option CategoryError :=
  match c.validate_identity_laws with
  | some e => some e
  | none =>
    match c.validate_associativity with
    | some e => some e
    | none => c.validate_well_definedness

/-- Embeds `CategoryVariable` (src/cat/mod.rs): the cursor state over the
category's value block. -/
structure CategoryVariable where
  values : List Nat
  morphism_count : Nat
  object_count : Nat
  done : Bool
deriving DecidableEq, Repr

/-- Embeds `CategoryVariable::new`: a fresh all-zero value block of length
`2·m + n + m·m`. -/
def CategoryVariable.new (object_count morphism_count : Nat) : CategoryVariable :=
  ⟨List.replicate (2 * morphism_count + object_count + morphism_count * morphism_count) 0,
    morphism_count, object_count, false⟩

/-- Embeds `CategoryVariable::initialize` (named `init` here): clear the done
flag and zero all values. -/
def CategoryVariable.init (v : CategoryVariable) : CategoryVariable :=
  ⟨List.replicate v.values.length 0, v.morphism_count, v.object_count, false⟩

/-- Embeds `CategoryVariable::advance` (src/cat/mod.rs, lines 275–283): one
raw odometer step on the composition range (each digit bounded by
`morphism_count`), with no validation.  `world.advance_counter(&range)` is the
shared counter-advance applied to the slice of the composition range, whose
per-digit sizes were filled with `morphism_count` by `CategoryVariable::new`. -/
def CategoryVariable.advance (v : CategoryVariable) : CategoryVariable :=
  if v.done then v
  else
    let off := 2 * v.morphism_count + v.object_count
    let step := advance_counter (v.values.drop off)
      (List.replicate (v.morphism_count * v.morphism_count) v.morphism_count)
    ⟨v.values.take off ++ step.1, v.morphism_count, v.object_count, step.2⟩

/-- Embeds `CategoryVariable::get` (src/cat/mod.rs, lines 286–297). -/
def CategoryVariable.get (v : CategoryVariable) : Option Category :=
  if v.done then none else some ⟨v.values, v.morphism_count, v.object_count⟩

end Cat

namespace Psh

/-- Embeds `PresheafError` (src/psh/mod.rs). -/
inductive PresheafError where
  | NotWellDefined (s f : Nat) : PresheafError
  | NonAssociative (triple : Nat × Nat × Nat) : PresheafError
deriving DecidableEq, Repr

/-- Modelled from the spec: the category skeleton consumed by src/psh/mod.rs
(`crate::cat::Category` with `number_of_objects`, `number_of_morphisms`,
`source(f)`, `target(f)`, `composition(g,f)`), whose definition is not under
src/.  Per the spec, the first `number_of_objects` morphism indices are, by
convention, the identities (identity of object `x` is morphism `x`), and
source/target arrays and the composition table are stored only for
non-identity morphisms. -/
structure Category where
  number_of_objects : Nat
  number_of_morphisms : Nat
  source_data : List Nat
  target_data : List Nat
  composition_data : List Nat
deriving DecidableEq, Repr

/-- Modelled from the spec: `source(f)` is `f`'s own object when `f` is an
identity, and the stored entry otherwise. -/
def Category.source (c : Category) (f : Nat) : Nat :=
  if f < c.number_of_objects then f
  else c.source_data.getD (f - c.number_of_objects) 0

/-- Modelled from the spec: `target(f)`, symmetric to `source`. -/
def Category.target (c : Category) (f : Nat) : Nat :=
  if f < c.number_of_objects then f
  else c.target_data.getD (f - c.number_of_objects) 0

/-- Modelled from the spec: `composition(g,f)` — if either argument is an
identity, the result is the other argument when source/target compose, else
the sentinel `0`; otherwise the stored table entry for the non-identity pair
(little-endian, `g` least significant). -/
def Category.composition (c : Category) (g f : Nat) : Nat :=
  if f < c.number_of_objects then (if c.source g = f then g else 0)
  else if g < c.number_of_objects then (if c.target f = g then f else 0)
  else
    c.composition_data.getD
      ((g - c.number_of_objects) +
        (f - c.number_of_objects) * (c.number_of_morphisms - c.number_of_objects)) 0

/-- Embeds `Presheaf` (src/psh/mod.rs): section count, the ambient category's
object/morphism counts, the fiber map `pi`, and the flat action table for
non-identity morphisms. -/
structure Presheaf where
  number_of_sections : Nat
  number_of_objects : Nat
  number_of_morphisms : Nat
  pi : List Nat
  action : List Nat
deriving DecidableEq, Repr

/-- Embeds `Presheaf::action` (src/psh/mod.rs, lines 97–104; named `actionAt`
because the Rust method shadows the field): the identity on sections for an
identity morphism, otherwise the table entry at
`section + (morphism - number_of_objects) * number_of_sections`. -/
def Presheaf.actionAt (p : Presheaf) (s morphism : Nat) : Nat :=
  if morphism < p.number_of_objects then s
  else p.action.getD (s + (morphism - p.number_of_objects) * p.number_of_sections) 0

/-- Embeds `Presheaf::validate_well_definedness` (src/psh/mod.rs, lines
139–164): for each section `s` and morphism `f`, with `s_f = action(s,f)`,
report `NotWellDefined{s,f}` if `pi(s_f) != source(f)`, or if
`pi(s) != target(f)` while `s_f != 0`. -/
def Presheaf.validate_well_definedness (p : Presheaf) (c : Category) : Option PresheafError :=
  firstErr (List.range p.number_of_sections) fun s =>
    firstErr (List.range c.number_of_morphisms) fun f =>
      if p.pi.getD (p.actionAt s f) 0 ≠ c.source f then
        some (PresheafError.NotWellDefined s f)
      else if p.pi.getD s 0 ≠ c.target f ∧ p.actionAt s f ≠ 0 then
        some (PresheafError.NotWellDefined s f)
      else none

/-- Embeds `Presheaf::validate_associativity` (src/psh/mod.rs, lines
113–136): for each section `s` and morphisms `f`, `g`,
`action(action(s,f), g)` must equal `action(s, composition(g,f))`; a failing
triple reports `NonAssociative{(s,f,g)}`. -/
def Presheaf.validate_associativity (p : Presheaf) (c : Category) : Option PresheafError :=
  firstErr (List.range p.number_of_sections) fun s =>
    firstErr (List.range c.number_of_morphisms) fun f =>
      firstErr (List.range c.number_of_morphisms) fun g =>
        if p.actionAt (p.actionAt s f) g ≠ p.actionAt s (c.composition g f) then
          some (PresheafError.NonAssociative (s, f, g))
        else none

/-- Embeds `Presheaf::validate` (src/psh/mod.rs, lines 107–111):
associativity, then well-definedness, short-circuiting. -/
def Presheaf.validate (p : Presheaf) (c : Category) : Option PresheafError :=
  match p.validate_associativity c with
  | some e => some e
  | none => p.validate_well_definedness c

/-- `current.validate(&self.category).is_ok()` as a Boolean. -/
def Presheaf.isValid (p : Presheaf) (c : Category) : Bool :=
  match p.validate c with
  | none => true
  | some _ => false

/-- Embeds `PresheafSet::next` (src/psh/mod.rs, lines 196–210): one raw
odometer step on the action table (each digit bounded by the number of
sections, `self.pi.len()`); if the odometer wrapped, return `false`
(exhausted, action left all-zero); otherwise if the candidate validates,
return `true`; otherwise repeat the full validated step (`self.next`). -/
def PresheafSet.next (c : Category) (pi : List Nat) (p : Presheaf) : Presheaf × Bool :=
  let r := validated_next (fun a => Presheaf.isValid { p with action := a } c) pi.length p.action
  ({ p with action := r.1 }, r.2)

/-- Embeds `PresheafSet::reset` (src/psh/mod.rs, lines 213–224): zero the
presheaf's `pi` and `action`, accept if the zero table validates, otherwise
perform the validated skip-forward. -/
def PresheafSet.reset (c : Category) (pi : List Nat) (p : Presheaf) : Presheaf × Bool :=
  let p0 : Presheaf := { p with pi := List.replicate p.pi.length 0,
                                action := List.replicate p.action.length 0 }
  match p0.validate c with
  | none => (p0, true)
  | some _ => PresheafSet.next c pi p0

/-- The "always return the section unchanged" action table: block `j` (for
the `j`-th non-identity morphism) is the identity `[0, …, S-1]`, so every
in-range lookup `s + j·S` yields `s`. -/
def idActionTable (S k : Nat) : List Nat :=
  (List.range (S * k)).map fun i => i % S

end Psh

/-- Embeds `get` (examples/semigroup.rs, lines 96–99): the binary-table
accessor `s[n * i + j]`. -/
def get (s : List Nat) (n i j : Nat) : Nat :=
  s.getD (n * i + j) 0

/-- Embeds `is_associative` (examples/semigroup.rs, lines 101–115): for all
`i, j, k < n`, `f(f(i,j),k) == f(i,f(j,k))` with `f` the table lookup,
stopping at the first mismatch. -/
def is_associative (s : List Nat) (n : Nat) : Bool :=
  (List.range n).all fun i =>
    (List.range n).all fun j =>
      (List.range n).all fun k =>
        get s n (get s n i j) k == get s n i (get s n j k)

/-- All `2^4 = 16` binary tables on a 2-element set, i.e. the function tables
enumerated by `HomSet::new(4, 2).iter()` in examples/semigroup.rs. -/
def tables2 : List (List Nat) :=
  (List.range 2).flatMap fun a =>
    (List.range 2).flatMap fun b =>
      (List.range 2).flatMap fun c =>
        (List.range 2).map fun d => [a, b, c, d]

theorem Function.index_eq_loop (es szs : List Nat) :
    Function.index es szs = linear_index_loop es szs := by
  induction es generalizing szs with
  | nil => rfl
  | cons e es ih =>
    cases szs with
    | nil => rfl
    | cons s ss => simp [Function.index, linear_index_loop, ih]

theorem calculate_linear_index_eq_loop {indices sizes : List Nat}
    (h : indices.length = sizes.length) :
    calculate_linear_index indices sizes = linear_index_loop indices sizes := by
  unfold calculate_linear_index
  by_cases h2 : indices.length = 2
  · rw [if_pos h2]
    obtain ⟨a, b, rfl⟩ : ∃ a b, indices = [a, b] := by
      match indices, h2 with
      | [a, b], _ => exact ⟨a, b, rfl⟩
    obtain ⟨x, y, rfl⟩ : ∃ x y, sizes = [x, y] := by
      match sizes, h with
      | [x, y], _ => exact ⟨x, y, rfl⟩
    simp [linear_index_loop]
    ring
  · rw [if_neg h2]

theorem getD_eq_zero {l : List Nat} (h : ∀ x ∈ l, x = 0) : ∀ i, l.getD i 0 = 0 := by
  induction l with
  | nil => intro i; cases i <;> rfl
  | cons a l ih =>
    intro i
    cases i with
    | zero => exact h a (by simp)
    | succ i => exact ih (fun x hx => h x (by simp [hx])) i

theorem getD_lt {l : List Nat} {m : Nat} (h : ∀ x ∈ l, x < m) (hm : 0 < m) :
    ∀ i, l.getD i 0 < m := by
  induction l with
  | nil => intro i; cases i <;> exact hm
  | cons a l ih =>
    intro i
    cases i with
    | zero => exact h a (by simp)
    | succ i => exact ih (fun x hx => h x (by simp [hx])) i

theorem idActionTable_getD_mod (S k i : Nat) (h : i < S * k) :
    (Psh.idActionTable S k).getD i 0 = i % S := by
  unfold Psh.idActionTable
  rw [List.getD_eq_getElem?_getD, List.getElem?_map, List.getElem?_range h]
  rfl

theorem idActionTable_getD {S k s j : Nat} (hs : s < S) (hj : j < k) :
    (Psh.idActionTable S k).getD (s + j * S) 0 = s := by
  have hlt : s + j * S < S * k := by
    calc s + j * S < S + j * S := by omega
      _ = (j + 1) * S := by ring
      _ ≤ k * S := Nat.mul_le_mul_right S (by omega)
      _ = S * k := Nat.mul_comm k S
  rw [idActionTable_getD_mod S k _ hlt, Nat.add_mul_mod_self_right, Nat.mod_eq_of_lt hs]

theorem is_associative_iff (s : List Nat) (n : Nat) :
    is_associative s n = true ↔
      ∀ i, i < n → ∀ j, j < n → ∀ k, k < n →
        get s n (get s n i j) k = get s n i (get s n j k) := by
  simp [is_associative, List.all_eq_true, List.mem_range]

/-- The category (2 objects, 3 morphisms: the two identities and one morphism
`2 : 0 → 1`) whose composition table `c(g,f) = values[7 + g + 3·f]`, with
blocks `[0,0,2], [0,1,0], [0,2,1]`, satisfies the identity laws but violates
both well-definedness (`c(2,2) = 1 ≠ 0` although `target(2) = 1 ≠ 0 =
source(2)`) and associativity. -/
def c3cat : Cat.Category :=
  ⟨[0, 1, 0, 0, 1, 1, 0, 1, 0, 0, 2, 0, 1, 0, 0, 2, 1], 3, 2⟩

/-- Claim C1 (amended).  For every bounds vector with all bounds positive:
starting from all-zero, `advance_counter` visits the digit vectors of
`0, 1, …, ∏bᵢ − 1` in order — pairwise distinct and covering every in-range
digit vector — returning `false` on each of the first `∏bᵢ − 1` steps and
`true` on the final step with the digits wrapped back to all-zero;
`ArrayTicker::advance` behaves identically on in-range digit vectors (its
Start state steps to Running without touching the digits); the flat-set
iterator of basic_set visits `0, …, n−1` each exactly once before reaching
End, but its final advance leaves the counter equal to `n` — it is *not*
reset to zero (see the counterexample). -/
theorem claim1_odometer_exhaustiveness (bs : List Nat) (n : Nat)
    (hpos : ∀ b ∈ bs, 0 < b) (hn : 0 < n) :
    (toDigits 0 bs = List.replicate bs.length 0)
    ∧ (∀ k, k + 1 < bs.prod →
        advance_counter (toDigits k bs) bs = (toDigits (k + 1) bs, false))
    ∧ (advance_counter (toDigits (bs.prod - 1) bs) bs = (List.replicate bs.length 0, true))
    ∧ (∀ j k, j < bs.prod → k < bs.prod → toDigits j bs = toDigits k bs → j = k)
    ∧ (∀ ds, List.Forall₂ (· < ·) ds bs → ∃ k, k < bs.prod ∧ toDigits k bs = ds)
    ∧ (∀ a s, ArrayTicker.advance ⟨IteratorState.Start, a, s⟩ = ⟨IteratorState.Running, a, s⟩)
    ∧ (∀ ds, List.Forall₂ (· < ·) ds bs →
        ArrayTicker.advance ⟨IteratorState.Running, ds, bs⟩ =
          ⟨if (advance_counter ds bs).2 then IteratorState.End else IteratorState.Running,
            (advance_counter ds bs).1, bs⟩)
    ∧ (∀ e, USizeStreamingIterator.advance ⟨IteratorState.Start, e, n⟩ =
        ⟨IteratorState.Running, e, n⟩)
    ∧ (∀ k, k + 1 < n → USizeStreamingIterator.advance ⟨IteratorState.Running, k, n⟩ =
        ⟨IteratorState.Running, k + 1, n⟩)
    ∧ (USizeStreamingIterator.advance ⟨IteratorState.Running, n - 1, n⟩ =
        ⟨IteratorState.End, n, n⟩) := by
  have hprod : 0 < bs.prod := List.prod_pos hpos
  refine ⟨toDigits_zero bs, ?_, ?_, ?_, ?_, ?_, ?_, ?_, ?_, ?_⟩
  · intro k hk
    have hv := toDigits_forall₂ hpos k
    rw [advance_counter_eq hv, loop_toDigits hpos (by omega), if_pos hk]
  · have hv := toDigits_forall₂ hpos (bs.prod - 1)
    rw [advance_counter_eq hv, loop_toDigits hpos (by omega), if_neg (by omega)]
  · intro j k hj hk heq
    have h1 := loop_toDigits hpos hj
    have h2 := loop_toDigits hpos hk
    rw [← h1, ← h2, heq]
  · intro ds hds
    exact ⟨linear_index_loop ds bs, loop_lt hds, toDigits_loop hds⟩
  · intro a s
    rfl
  · intro ds hds
    simp only [ArrayTicker.advance]
    rw [tickLoop_eq_advance_counter hds]
  · intro e
    rfl
  · intro k hk
    simp only [USizeStreamingIterator.advance]
    rw [if_neg (by omega)]
  · simp only [USizeStreamingIterator.advance]
    rw [if_pos (by omega)]
    have h1 : n - 1 + 1 = n := by omega
    rw [h1]

/-- Witness for C1 at bounds `[2, 3]` and flat size `3`. -/
theorem claim1_witness :
    advance_counter (toDigits 2 [2, 3]) [2, 3] = (toDigits 3 [2, 3], false)
    ∧ advance_counter (toDigits ([2, 3].prod - 1) [2, 3]) [2, 3] =
        (List.replicate ([2, 3] : List Nat).length 0, true)
    ∧ USizeStreamingIterator.advance ⟨IteratorState.Running, 3 - 1, 3⟩ =
        ⟨IteratorState.End, 3, 3⟩ := by
  have h := claim1_odometer_exhaustiveness [2, 3] 3 (by decide) (by decide)
  exact ⟨h.2.1 2 (by decide), h.2.2.1, h.2.2.2.2.2.2.2.2.2⟩

/-- Counterexample for C1 as stated: for the flat-set iterator of basic_set
with size 1, the advance that reaches the End state leaves the counter at 1
(the set size), not 0 — the digits are not "all-zero again" after the final
advance. -/
theorem claim1_counterexample :
    USizeStreamingIterator.advance (USizeStreamingIterator.advance
      ⟨IteratorState.Start, 0, 1⟩) = ⟨IteratorState.End, 1, 1⟩
    ∧ (1 : Nat) ≠ 0 := by
  exact ⟨rfl, by decide⟩

/-- Claim C6 (confirmed).  For every bounds vector with all bounds positive,
the linear index computed by `calculate_linear_index` maps in-range digit
vectors injectively into `[0, ∏bᵢ)`, every index in that interval is attained
(by the mixed-radix digits of the index), the round-trip
index → digits → index is the identity, and `Function::index` computes the
same value. -/
theorem claim6_linear_index_bijection (bs ds : List Nat) (hpos : ∀ b ∈ bs, 0 < b)
    (h : List.Forall₂ (· < ·) ds bs) :
    calculate_linear_index ds bs < bs.prod
    ∧ (∀ ds', List.Forall₂ (· < ·) ds' bs →
        calculate_linear_index ds' bs = calculate_linear_index ds bs → ds' = ds)
    ∧ (∀ n, n < bs.prod → List.Forall₂ (· < ·) (toDigits n bs) bs ∧
        calculate_linear_index (toDigits n bs) bs = n)
    ∧ Function.index ds bs = calculate_linear_index ds bs := by
  have hlen : ds.length = bs.length := forall₂_length h
  rw [calculate_linear_index_eq_loop hlen]
  refine ⟨loop_lt h, ?_, ?_, ?_⟩
  · intro ds' hds' heq
    rw [calculate_linear_index_eq_loop (forall₂_length hds')] at heq
    rw [← toDigits_loop hds', ← toDigits_loop h, heq]
  · intro n hn
    have hv := toDigits_forall₂ hpos n
    refine ⟨hv, ?_⟩
    rw [calculate_linear_index_eq_loop (forall₂_length hv)]
    exact loop_toDigits hpos hn
  · rw [Function.index_eq_loop]

/-- Witness for C6 at bounds `[2, 3]` and digits `[1, 2]`. -/
theorem claim6_witness :
    calculate_linear_index [1, 2] [2, 3] < ([2, 3] : List Nat).prod
    ∧ calculate_linear_index (toDigits 5 [2, 3]) [2, 3] = 5 := by
  have h := claim6_linear_index_bijection [2, 3] [1, 2] (by decide)
    (List.Forall₂.cons (by omega) (List.Forall₂.cons (by omega) List.Forall₂.nil))
  exact ⟨h.1, (h.2.2.1 5 (by decide)).2⟩

/-- Claim C7 (amended).  `calculate_linear_index` (set/mod.rs) and
`Function::index` (hom_set) compute the same little-endian linear index on
all shared inputs; the semigroup example's accessor `get(s,n,i,j) = s[n·i+j]`
instead treats its *second* argument as least significant: it reads the entry
whose little-endian index is that of the swapped pair `(j, i)`. -/
theorem claim7_linear_index_conventions :
    (∀ ds bs : List Nat, ds.length = bs.length →
      calculate_linear_index ds bs = Function.index ds bs)
    ∧ (∀ s n i j, get s n i j = s.getD (Function.index [j, i] [n, n]) 0) := by
  constructor
  · intro ds bs h
    rw [calculate_linear_index_eq_loop h, Function.index_eq_loop]
  · intro s n i j
    show s.getD (n * i + j) 0 = s.getD (j + n * (i + n * 0)) 0
    congr 1
    ring

/-- Witness for C7 at digits `[1, 2]` and bounds `[3, 4]`. -/
theorem claim7_witness :
    calculate_linear_index [1, 2] [3, 4] = Function.index [1, 2] [3, 4] := by
  exact claim7_linear_index_conventions.1 [1, 2] [3, 4] (by decide)

/-- Counterexample for C7 as stated: on the shared input — entry `(i,j) =
(0,1)` of a 2×2 table — the semigroup accessor `get` reads position
`2·0+1 = 1` while the little-endian `calculate_linear_index` convention
designates position `0 + 1·2 = 2`; on the table `[10,11,12,13]` the two
disagree (11 vs 12). -/
theorem claim7_counterexample :
    get [10, 11, 12, 13] 2 0 1 ≠
      ([10, 11, 12, 13] : List Nat).getD (calculate_linear_index [0, 1] [2, 2]) 0 := by
  decide

/-- Claim C8 (confirmed).  `is_associative(s, n)` returns `true` exactly when
`f(f(i,j),k) = f(i,f(j,k))` for all `i, j, k < n` with `f` the table lookup
`get`; and of the 16 binary tables on a 2-element set, exactly 8 pass it. -/
theorem claim8_associativity_checker :
    (∀ s n, is_associative s n = true ↔
      ∀ i, i < n → ∀ j, j < n → ∀ k, k < n →
        get s n (get s n i j) k = get s n i (get s n j k))
    ∧ tables2.length = 16
    ∧ (tables2.filter fun s => is_associative s 2).length = 8 := by
  exact ⟨is_associative_iff, by decide, by decide⟩

/-- Witness for C8: the XOR table on two elements passes the checker. -/
theorem claim8_witness : is_associative [0, 1, 1, 0] 2 = true := by
  exact (claim8_associativity_checker.1 [0, 1, 1, 0] 2).mpr (by decide)

/-- Claim C10 (amended).  A variable over a `ProductSet`/`HomSet` with a zero
dimension bound still yields the all-zero element after `initialize`
(`get()` is `Some` although `size()` is 0).  But a zero bound behaves exactly
like bound 1 in `advance_counter` (`d+1 < 0` and `d+1 < 1` are both false for
every digit), so the cursor enumerates `∏ max(bᵢ,1)` elements — exactly one
only when every bound is 0 or 1.  In particular a `HomSet` with target size 0
(all bounds zero) yields exactly one element: the advance following
`initialize` signals exhaustion. -/
theorem claim10_zero_bound_enumeration :
    (∀ sizes : List Nat, (ProductSetVariable.new sizes).init.get =
      some (List.replicate sizes.length 0))
    ∧ (∀ ds bs : List Nat, advance_counter ds bs =
        advance_counter ds (bs.map fun b => max b 1))
    ∧ (∀ d, 0 < d → HomSet.size d 0 = 0
        ∧ (HomSetVariable.new d 0).init.get = some (List.replicate d 0)
        ∧ ((HomSetVariable.new d 0).init.advance).get = none) := by
  refine ⟨?_, ?_, ?_⟩
  · intro sizes
    simp [ProductSetVariable.new, ProductSetVariable.init, ProductSetVariable.get]
  · intro ds
    induction ds with
    | nil => intro bs; cases bs <;> rfl
    | cons d ds ih =>
      intro bs
      cases bs with
      | nil => rfl
      | cons b bs =>
        simp only [advance_counter, List.map_cons]
        by_cases hb : b = 0
        · subst hb
          rw [if_neg (by omega), if_neg (by omega), ih bs]
        · have hmax : max b 1 = b := by omega
          simp only [hmax]
          by_cases hlt : d + 1 < b
          · rw [if_pos hlt, if_pos hlt]
          · rw [if_neg hlt, if_neg hlt, ih bs]
  · intro d hd
    refine ⟨?_, ?_, ?_⟩
    · show (0 : Nat) ^ d = 0
      exact Nat.zero_pow (by omega)
    · simp [HomSetVariable.new, HomSetVariable.init, HomSetVariable.get]
    · have hdone : (advance_counter (List.replicate d 0)
          (List.replicate d 0)).2 = true := by
        have := advance_counter_zero_limits (List.replicate d 0)
        rwa [List.length_replicate] at this
      simp [HomSetVariable.new, HomSetVariable.init, HomSetVariable.advance,
        HomSetVariable.get, hdone]

/-- Witness for C10 at domain size 2. -/
theorem claim10_witness :
    HomSet.size 2 0 = 0
    ∧ (HomSetVariable.new 2 0).init.get = some (List.replicate 2 0)
    ∧ ((HomSetVariable.new 2 0).init.advance).get = none := by
  exact claim10_zero_bound_enumeration.2.2 2 (by decide)

/-- Counterexample for C10 as stated: a `ProductSet` with bounds `[0, 2]` has
`size() = 0` and its cursor does yield the all-zero tuple after `initialize`,
but the subsequent advance does *not* signal exhaustion: it yields a second
element `[0, 1]`, so the cursor does not enumerate exactly one element. -/
theorem claim10_counterexample :
    ProductSet.size [0, 2] = 0
    ∧ ((ProductSetVariable.new [0, 2]).init).get = some [0, 0]
    ∧ (((ProductSetVariable.new [0, 2]).init).advance).get = some [0, 1] := by
  decide

theorem psh_wd_none_iff (p : Psh.Presheaf) (c : Psh.Category) :
    p.validate_well_definedness c = none ↔
      ∀ s, s < p.number_of_sections → ∀ f, f < c.number_of_morphisms →
        p.pi.getD (p.actionAt s f) 0 = c.source f ∧
          (p.pi.getD s 0 = c.target f ∨ p.actionAt s f = 0) := by
  unfold Psh.Presheaf.validate_well_definedness
  rw [firstErr_eq_none_iff]
  constructor
  · intro h s hs f hf
    have h1 := h s (List.mem_range.mpr hs)
    rw [firstErr_eq_none_iff] at h1
    have h2 := h1 f (List.mem_range.mpr hf)
    by_cases hc1 : p.pi.getD (p.actionAt s f) 0 ≠ c.source f
    · rw [if_pos hc1] at h2
      exact absurd h2 (by simp)
    · rw [if_neg hc1] at h2
      push_neg at hc1
      refine ⟨hc1, ?_⟩
      by_cases hc2 : p.pi.getD s 0 ≠ c.target f ∧ p.actionAt s f ≠ 0
      · rw [if_pos hc2] at h2
        exact absurd h2 (by simp)
      · by_cases he : p.pi.getD s 0 = c.target f
        · exact Or.inl he
        · push_neg at hc2
          exact Or.inr (hc2 he)
  · intro h s hs
    rw [firstErr_eq_none_iff]
    intro f hf
    obtain ⟨h1, h2⟩ := h s (List.mem_range.mp hs) f (List.mem_range.mp hf)
    have hng : ¬(p.pi.getD s 0 ≠ c.target f ∧ p.actionAt s f ≠ 0) := by
      rcases h2 with h2 | h2
      · intro hand
        exact hand.1 h2
      · intro hand
        exact hand.2 h2
    rw [if_neg (fun hne => hne h1), if_neg hng]

theorem psh_wd_some {p : Psh.Presheaf} {c : Psh.Category} {s f : Nat}
    (h : p.validate_well_definedness c = some (Psh.PresheafError.NotWellDefined s f)) :
    s < p.number_of_sections ∧ f < c.number_of_morphisms ∧
      ¬(p.pi.getD (p.actionAt s f) 0 = c.source f ∧
        (p.pi.getD s 0 = c.target f ∨ p.actionAt s f = 0)) := by
  unfold Psh.Presheaf.validate_well_definedness at h
  obtain ⟨s', hs', h1⟩ := firstErr_some h
  obtain ⟨f', hf', h2⟩ := firstErr_some h1
  by_cases hc1 : p.pi.getD (p.actionAt s' f') 0 ≠ c.source f'
  · rw [if_pos hc1] at h2
    simp only [Option.some.injEq, Psh.PresheafError.NotWellDefined.injEq] at h2
    obtain ⟨rfl, rfl⟩ := h2
    exact ⟨List.mem_range.mp hs', List.mem_range.mp hf', fun hand => hc1 hand.1⟩
  · rw [if_neg hc1] at h2
    by_cases hc2 : p.pi.getD s' 0 ≠ c.target f' ∧ p.actionAt s' f' ≠ 0
    · rw [if_pos hc2] at h2
      simp only [Option.some.injEq, Psh.PresheafError.NotWellDefined.injEq] at h2
      obtain ⟨rfl, rfl⟩ := h2
      refine ⟨List.mem_range.mp hs', List.mem_range.mp hf', ?_⟩
      intro hand
      rcases hand.2 with h3 | h3
      · exact hc2.1 h3
      · exact hc2.2 h3
    · rw [if_neg hc2] at h2
      exact absurd h2 (by simp)

theorem psh_assoc_none_iff (p : Psh.Presheaf) (c : Psh.Category) :
    p.validate_associativity c = none ↔
      ∀ s, s < p.number_of_sections → ∀ f, f < c.number_of_morphisms →
        ∀ g, g < c.number_of_morphisms →
          p.actionAt (p.actionAt s f) g = p.actionAt s (c.composition g f) := by
  unfold Psh.Presheaf.validate_associativity
  rw [firstErr_eq_none_iff]
  constructor
  · intro h s hs f hf g hg
    have h1 := h s (List.mem_range.mpr hs)
    rw [firstErr_eq_none_iff] at h1
    have h2 := h1 f (List.mem_range.mpr hf)
    rw [firstErr_eq_none_iff] at h2
    have h3 := h2 g (List.mem_range.mpr hg)
    by_contra hc
    rw [if_pos hc] at h3
    exact absurd h3 (by simp)
  · intro h s hs
    rw [firstErr_eq_none_iff]
    intro f hf
    rw [firstErr_eq_none_iff]
    intro g hg
    rw [if_neg (by
      simp [h s (List.mem_range.mp hs) f (List.mem_range.mp hf) g (List.mem_range.mp hg)])]

/-- The one-object monoid skeleton (2 morphisms: the identity and one
idempotent endomorphism) used as the witness category for the presheaf
claims. -/
def w2cat : Psh.Category := ⟨1, 2, [0], [0], [1]⟩

/-- A presheaf candidate over `w2cat`: 2 sections, zero fiber map, all-zero
action table. -/
def w2psh : Psh.Presheaf := ⟨2, 1, 2, [0, 0], [0, 0]⟩

/-- Claim C2 (amended).  The *presheaf* cursor (`PresheafSet::next`) is a
validated skip-forward: from any in-range action table it yields exactly the
next table, in raw odometer order, that passes `validate` — skipping every
invalid table and yielding no invalid one — or wraps to all-zero and signals
exhaustion when no later table is valid; `PresheafSet::reset` zeroes the
table (and `pi`) and performs the same skip-forward when the zero table is
invalid.  The *category* cursor, contrary to the claim, performs only the raw
odometer step on the composition range with no law checking (see the
counterexample). -/
theorem claim2_validated_generation (c : Psh.Category) (pi : List Nat) (p : Psh.Presheaf)
    (hv : List.Forall₂ (· < ·) p.action (List.replicate p.action.length pi.length)) :
    ((∀ j, linear_index_loop p.action (List.replicate p.action.length pi.length) < j →
        j < pi.length ^ p.action.length →
        Psh.Presheaf.isValid
          { p with action := toDigits j (List.replicate p.action.length pi.length) } c = true →
        (∀ t, linear_index_loop p.action (List.replicate p.action.length pi.length) < t →
          t < j →
          Psh.Presheaf.isValid
            { p with action := toDigits t (List.replicate p.action.length pi.length) } c
              = false) →
        Psh.PresheafSet.next c pi p =
          ({ p with action := toDigits j (List.replicate p.action.length pi.length) }, true))
      ∧ ((∀ j, linear_index_loop p.action (List.replicate p.action.length pi.length) < j →
          j < pi.length ^ p.action.length →
          Psh.Presheaf.isValid
            { p with action := toDigits j (List.replicate p.action.length pi.length) } c
              = false) →
        Psh.PresheafSet.next c pi p =
          ({ p with action := List.replicate p.action.length 0 }, false)))
    ∧ (Psh.Presheaf.validate
        { p with pi := List.replicate p.pi.length 0,
                 action := List.replicate p.action.length 0 } c = none →
      Psh.PresheafSet.reset c pi p =
        ({ p with pi := List.replicate p.pi.length 0,
                  action := List.replicate p.action.length 0 }, true))
    ∧ (∀ e, Psh.Presheaf.validate
        { p with pi := List.replicate p.pi.length 0,
                 action := List.replicate p.action.length 0 } c = some e →
      Psh.PresheafSet.reset c pi p =
        Psh.PresheafSet.next c pi
          { p with pi := List.replicate p.pi.length 0,
                   action := List.replicate p.action.length 0 })
    ∧ (∀ v : Cat.CategoryVariable, v.done = false →
        Cat.CategoryVariable.advance v =
          ⟨v.values.take (2 * v.morphism_count + v.object_count) ++
            (advance_counter (v.values.drop (2 * v.morphism_count + v.object_count))
              (List.replicate (v.morphism_count * v.morphism_count) v.morphism_count)).1,
            v.morphism_count, v.object_count,
            (advance_counter (v.values.drop (2 * v.morphism_count + v.object_count))
              (List.replicate (v.morphism_count * v.morphism_count) v.morphism_count)).2⟩) := by
  have hspec := validated_next_spec
    (fun a => Psh.Presheaf.isValid { p with action := a } c) pi.length p.action hv
  refine ⟨⟨?_, ?_⟩, ?_, ?_, ?_⟩
  · intro j h1 h2 h3 h4
    have hr := hspec.1 j h1 h2 h3 h4
    simp only [Psh.PresheafSet.next]
    rw [hr]
  · intro hall
    have hr := hspec.2 hall
    simp only [Psh.PresheafSet.next]
    rw [hr]
  · intro h
    simp only [Psh.PresheafSet.reset]
    rw [h]
  · intro e h
    simp only [Psh.PresheafSet.reset]
    rw [h]
  · intro v hdone
    simp only [Cat.CategoryVariable.advance]
    rw [if_neg (by simp [hdone])]

/-- Witness for C2: over `w2cat` with 2 sections, from the all-zero action
table the validated cursor skips the invalid table `[1, 0]` (raw index 1) and
stops at the valid table `[0, 1]` (raw index 2). -/
theorem claim2_witness :
    Psh.PresheafSet.next w2cat [0, 0] w2psh = (⟨2, 1, 2, [0, 0], [0, 1]⟩, true) := by
  have h := (claim2_validated_generation w2cat [0, 0] w2psh
    (List.Forall₂.cons (by decide) (List.Forall₂.cons (by decide) List.Forall₂.nil))).1.1
  have h2 := h 2 (by decide) (by decide) (by decide) ?_
  · have h3 : toDigits 2 (List.replicate w2psh.action.length (List.length ([0, 0] : List Nat)))
        = [0, 1] := by decide
    rw [h3] at h2
    exact h2
  · intro t ht1 ht2
    have hl : linear_index_loop w2psh.action
        (List.replicate w2psh.action.length (List.length ([0, 0] : List Nat))) = 0 := by
      decide
    rw [hl] at ht1
    have ht : t = 1 := by omega
    rw [ht]
    decide

/-- Counterexample for C2 as stated: the freshly initialized category cursor
(1 object, 2 morphisms) yields the all-zero candidate, whose `validate()`
fails with `NotAnIdentity 0` — so the category cursor does stop at a
candidate that does not pass validation, without being exhausted. -/
theorem claim2_counterexample :
    (Cat.CategoryVariable.new 1 2).init.get = some ⟨List.replicate 9 0, 2, 1⟩
    ∧ Cat.Category.validate ⟨List.replicate 9 0, 2, 1⟩ =
        some (Cat.CategoryError.NotAnIdentity 0)
    ∧ some (Cat.CategoryError.NotAnIdentity 0) ≠ (none : Option Cat.CategoryError) := by
  decide

/-- Claim C3 (amended).  `Category::validate` short-circuits on the first
failing check, but runs the checks in the order identity laws, then
associativity, then well-definedness — the `O(m³)` associativity check runs
*before* the `O(m²)` well-definedness check.  Consequently a candidate that
passes the identity laws but violates both well-definedness and associativity
is reported as `NonAssociative`, not `IncompatibleComposition` (see the
counterexample). -/
theorem claim3_validation_order (c : Cat.Category) :
    (∀ e, c.validate_identity_laws = some e → c.validate = some e)
    ∧ (∀ e, c.validate_identity_laws = none → c.validate_associativity = some e →
        c.validate = some e)
    ∧ (c.validate_identity_laws = none → c.validate_associativity = none →
        c.validate = c.validate_well_definedness)
    ∧ (c.validate = none ↔ c.validate_identity_laws = none ∧
        c.validate_associativity = none ∧ c.validate_well_definedness = none) := by
  unfold Cat.Category.validate
  refine ⟨?_, ?_, ?_, ?_⟩
  · intro e h
    rw [h]
  · intro e h1 h2
    rw [h1, h2]
  · intro h1 h2
    rw [h1, h2]
  · cases h1 : c.validate_identity_laws with
    | some e => simp [h1]
    | none =>
      cases h2 : c.validate_associativity with
      | some e => simp [h2]
      | none => simp [h2]

/-- Witness for C3 at the category `c3cat` (identity laws pass, associativity
fails): `validate` reports the associativity error. -/
theorem claim3_witness :
    Cat.Category.validate c3cat = some (Cat.CategoryError.NonAssociative 2 1 0) :=
  (claim3_validation_order c3cat).2.1 (Cat.CategoryError.NonAssociative 2 1 0)
    (by decide) (by decide)

/-- Counterexample for C3 as stated: `c3cat` violates both well-definedness
(`IncompatibleComposition 2 2`) and associativity, yet `validate()` returns
the `NonAssociative` error, not the `IncompatibleComposition` error the claim
predicts. -/
theorem claim3_counterexample :
    Cat.Category.validate_well_definedness c3cat =
      some (Cat.CategoryError.IncompatibleComposition 2 2)
    ∧ Cat.Category.validate_associativity c3cat =
      some (Cat.CategoryError.NonAssociative 2 1 0)
    ∧ Cat.Category.validate c3cat = some (Cat.CategoryError.NonAssociative 2 1 0)
    ∧ some (Cat.CategoryError.NonAssociative 2 1 0) ≠
        some (Cat.CategoryError.IncompatibleComposition 2 2) := by
  decide

/-- Claim C4 (confirmed).  The category well-definedness checker accepts
exactly when every pair of morphisms with `target(f) ≠ source(g)` has
`composition(g,f)` equal to the sentinel 0 (composable pairs are
unconstrained), and a reported `IncompatibleComposition{g,f}` names a pair
that indeed violates the condition. -/
theorem claim4_well_definedness_iff (c : Cat.Category) :
    (c.validate_well_definedness = none ↔
      ∀ f, f < c.morphism_count → ∀ g, g < c.morphism_count →
        c.target f ≠ c.source g → c.composition g f = 0)
    ∧ (∀ g f, c.validate_well_definedness =
          some (Cat.CategoryError.IncompatibleComposition g f) →
        g < c.morphism_count ∧ f < c.morphism_count ∧
          c.target f ≠ c.source g ∧ c.composition g f ≠ 0) := by
  constructor
  · unfold Cat.Category.validate_well_definedness
    rw [firstErr_eq_none_iff]
    constructor
    · intro h f hf g hg hne
      have h1 := h f (List.mem_range.mpr hf)
      rw [firstErr_eq_none_iff] at h1
      have h2 := h1 g (List.mem_range.mpr hg)
      by_contra hc
      rw [if_pos ⟨hne, hc⟩] at h2
      exact absurd h2 (by simp)
    · intro h f hf
      rw [firstErr_eq_none_iff]
      intro g hg
      have hng : ¬(c.target f ≠ c.source g ∧ c.composition g f ≠ 0) := by
        intro hand
        exact hand.2 (h f (List.mem_range.mp hf) g (List.mem_range.mp hg) hand.1)
      rw [if_neg hng]
  · intro g f herr
    unfold Cat.Category.validate_well_definedness at herr
    obtain ⟨f', hf', herr2⟩ := firstErr_some herr
    obtain ⟨g', hg', herr3⟩ := firstErr_some herr2
    by_cases hcond : c.target f' ≠ c.source g' ∧ c.composition g' f' ≠ 0
    · rw [if_pos hcond] at herr3
      simp only [Option.some.injEq,
        Cat.CategoryError.IncompatibleComposition.injEq] at herr3
      obtain ⟨rfl, rfl⟩ := herr3
      exact ⟨List.mem_range.mp hg', List.mem_range.mp hf', hcond.1, hcond.2⟩
    · rw [if_neg hcond] at herr3
      exact absurd herr3 (by simp)

/-- Witness for C4 at `c3cat`, whose checker reports the violating pair
`(g, f) = (2, 2)`. -/
theorem claim4_witness :
    2 < Cat.Category.morphism_count c3cat ∧ 2 < Cat.Category.morphism_count c3cat ∧
      Cat.Category.target c3cat 2 ≠ Cat.Category.source c3cat 2 ∧
      Cat.Category.composition c3cat 2 2 ≠ 0 :=
  (claim4_well_definedness_iff c3cat).2 2 2 (by decide)

/-- Claim C5 (amended).  The presheaf well-definedness checker accepts
exactly when, for every section `s` and morphism `f`,
`pi(action(s,f)) = source(f)` and — whenever `action(s,f) ≠ 0` (the checker
gates the second test on the section-0 sentinel, *not* on the fiber
constraint as the claim states) — also `pi(s) = target(f)`; a reported
`NotWellDefined{s,f}` names a pair that indeed violates this. -/
theorem claim5_psh_well_definedness (p : Psh.Presheaf) (c : Psh.Category) :
    (p.validate_well_definedness c = none ↔
      ∀ s, s < p.number_of_sections → ∀ f, f < c.number_of_morphisms →
        p.pi.getD (p.actionAt s f) 0 = c.source f ∧
          (p.pi.getD s 0 = c.target f ∨ p.actionAt s f = 0))
    ∧ (∀ s f, p.validate_well_definedness c = some (Psh.PresheafError.NotWellDefined s f) →
        s < p.number_of_sections ∧ f < c.number_of_morphisms ∧
          ¬(p.pi.getD (p.actionAt s f) 0 = c.source f ∧
            (p.pi.getD s 0 = c.target f ∨ p.actionAt s f = 0))) :=
  ⟨psh_wd_none_iff p c, fun _ _ h => psh_wd_some h⟩

/-- Witness for C5: the zero action table over `w2cat` passes the checker,
via the acceptance characterization. -/
theorem claim5_witness :
    Psh.Presheaf.validate_well_definedness w2psh w2cat = none :=
  (claim5_psh_well_definedness w2psh w2cat).1.mpr (by decide)

/-- The category for the C5 counterexample: one object, one non-identity
morphism whose stored target (1) lies outside the object range. -/
def c5cat : Psh.Category := ⟨1, 2, [0], [1], []⟩

/-- The presheaf for the C5 counterexample: one section over object 0, whose
action under morphism 1 is the sentinel section 0. -/
def c5psh : Psh.Presheaf := ⟨1, 1, 2, [0], [0]⟩

/-- Counterexample for C5 as stated: the checker accepts `c5psh` over `c5cat`
although at `(s, f) = (0, 1)` the source-side fiber constraint
`pi(action(s,f)) = source(f)` holds while `pi(s) ≠ target(f)` — by the claim
the checker would have to reject.  The code instead skips the target-side
test because `action(s,f) = 0`. -/
theorem claim5_counterexample :
    Psh.Presheaf.validate_well_definedness c5psh c5cat = none
    ∧ c5psh.pi.getD (c5psh.actionAt 0 1) 0 = c5cat.source 1
    ∧ c5psh.pi.getD 0 0 ≠ c5cat.target 1
    ∧ c5psh.actionAt 0 1 = 0
    ∧ 0 < c5psh.number_of_sections ∧ 1 < c5cat.number_of_morphisms := by
  decide

/-- Claim C9 (amended).  Over every *one-object* category skeleton (stored
source/target entries all 0) whose composition yields in-range morphism
indices, the presheaf whose action table always returns its section argument
unchanged (`idActionTable`) passes both the well-definedness check and the
functoriality check; for categories with more than one object the claim
fails (see the counterexample), because well-definedness forces
`pi(s) = source(id_x)` for every object `x`. -/
theorem claim9_identity_action (S m : Nat) (src tgt compd : List Nat)
    (hm : 1 ≤ m) (hsrc : ∀ x ∈ src, x = 0) (htgt : ∀ x ∈ tgt, x = 0)
    (hcomp : ∀ x ∈ compd, x < m) :
    Psh.Presheaf.validate_well_definedness
        ⟨S, 1, m, List.replicate S 0, Psh.idActionTable S (m - 1)⟩
        ⟨1, m, src, tgt, compd⟩ = none
    ∧ Psh.Presheaf.validate_associativity
        ⟨S, 1, m, List.replicate S 0, Psh.idActionTable S (m - 1)⟩
        ⟨1, m, src, tgt, compd⟩ = none := by
  have hpi : ∀ i, (List.replicate S 0).getD i 0 = 0 :=
    getD_eq_zero (fun x hx => List.eq_of_mem_replicate hx)
  have hsource : ∀ f, Psh.Category.source ⟨1, m, src, tgt, compd⟩ f = 0 := by
    intro f
    unfold Psh.Category.source
    dsimp only
    by_cases hf : f < 1
    · rw [if_pos hf]
      omega
    · rw [if_neg hf]
      exact getD_eq_zero hsrc _
  have htarget : ∀ f, Psh.Category.target ⟨1, m, src, tgt, compd⟩ f = 0 := by
    intro f
    unfold Psh.Category.target
    dsimp only
    by_cases hf : f < 1
    · rw [if_pos hf]
      omega
    · rw [if_neg hf]
      exact getD_eq_zero htgt _
  have hact : ∀ s f, s < S → f < m →
      Psh.Presheaf.actionAt
        ⟨S, 1, m, List.replicate S 0, Psh.idActionTable S (m - 1)⟩ s f = s := by
    intro s f hs hf
    unfold Psh.Presheaf.actionAt
    dsimp only
    by_cases hf1 : f < 1
    · rw [if_pos hf1]
    · rw [if_neg hf1]
      exact idActionTable_getD hs (by omega)
  have hcompm : ∀ g f, g < m → f < m →
      Psh.Category.composition ⟨1, m, src, tgt, compd⟩ g f < m := by
    intro g f hg hf
    unfold Psh.Category.composition
    dsimp only
    by_cases hf1 : f < 1
    · rw [if_pos hf1]
      by_cases hsg : Psh.Category.source ⟨1, m, src, tgt, compd⟩ g = f
      · rw [if_pos hsg]
        exact hg
      · rw [if_neg hsg]
        omega
    · rw [if_neg hf1]
      by_cases hg1 : g < 1
      · rw [if_pos hg1]
        by_cases htf : Psh.Category.target ⟨1, m, src, tgt, compd⟩ f = g
        · rw [if_pos htf]
          exact hf
        · rw [if_neg htf]
          omega
      · rw [if_neg hg1]
        exact getD_lt hcomp (by omega) _
  constructor
  · rw [psh_wd_none_iff]
    intro s hs f hf
    dsimp only at hs hf ⊢
    exact ⟨by rw [hpi, hsource], Or.inl (by rw [hpi, htarget])⟩
  · rw [psh_assoc_none_iff]
    intro s hs f hf g hg
    dsimp only at hs hf hg ⊢
    rw [hact s f hs hf, hact s g hs hg, hact s _ hs (hcompm g f hg hf)]

/-- Witness for C9: the identity action with 2 sections over the one-object
skeleton with 2 morphisms and composition entry `[1]` passes both checks. -/
theorem claim9_witness :
    Psh.Presheaf.validate_well_definedness
        ⟨2, 1, 2, List.replicate 2 0, Psh.idActionTable 2 (2 - 1)⟩
        ⟨1, 2, [0], [0], [1]⟩ = none
    ∧ Psh.Presheaf.validate_associativity
        ⟨2, 1, 2, List.replicate 2 0, Psh.idActionTable 2 (2 - 1)⟩
        ⟨1, 2, [0], [0], [1]⟩ = none :=
  claim9_identity_action 2 2 [0] [0] [1] (by decide) (by decide) (by decide) (by decide)

/-- The 2-object category (just the two identities) of the C9
counterexample. -/
def c9cat : Psh.Category := ⟨2, 2, [], [], []⟩

/-- One section with `pi = [0]` and the (empty) identity action table over
`c9cat`. -/
def c9psh : Psh.Presheaf := ⟨1, 2, 2, [0], Psh.idActionTable 1 0⟩

/-- Counterexample for C9 as stated: the identity-action presheaf `c9psh`
over the two-object category `c9cat` fails well-definedness at
`(s, f) = (0, 1)` (the identity of object 1: `pi(action(0,1)) = pi(0) = 0 ≠ 1
= source(1)`), so the identity action does *not* pass the checks for every
category and fiber map. -/
theorem claim9_counterexample :
    Psh.Presheaf.validate_well_definedness c9psh c9cat =
      some (Psh.PresheafError.NotWellDefined 0 1)
    ∧ some (Psh.PresheafError.NotWellDefined 0 1) ≠ (none : Option Psh.PresheafError) := by
  decide

end Pshcalc
